import Mathlib

/-!
Verification development for the fungible-asset contract layer of rgb-node
(files `src/contracts/fungible/processor.rs`, `src/contracts/fungible/runtime.rs`,
`src/contracts/fungible/data/outcoins.rs`).

The Rust code is shallowly embedded: pure functions become Lean functions,
`Result` becomes `Except`, machine integers become `Nat` (the handled values
are far below the `u64` range; overflow never decides a branch in the
modelled paths), and the two externally-injected effects (the wall clock and
the thread-local RNG used for seal blinding) become explicit parameters, as
the repository's own design notes suggest for a faithful reimplementation.
-/

deriving instance DecidableEq for Except

namespace RgbNode

/-! ## Accounting values

`AccountingValue` is the display amount used in coin notations.  In the Rust
source it is `f32`; its decimal parser/printer live outside the three source
files.  Modelled from the spec: "Coins — a decimal quantity"; the value is an
integral part plus a list of fractional decimal digits, and its textual codec
(defined later) writes the digits verbatim, so that formatting is the exact
inverse of parsing for these plain decimal forms, which is all the source's
round trips exercise. -/
structure AccountingValue where
  int : Nat
  fracDigits : List (Fin 10)
deriving DecidableEq

/-- Modelled from the spec (section 4.2): `transmutate(display, precision)` is
`round(display * 10^precision)` with the reference's truncation rule: the
integral part shifted by the precision plus the value of the first
`precision` fractional digits. -/
def Coins.transmutate (a : AccountingValue) (precision : Nat) : Nat :=
  a.int * 10 ^ precision +
    ((a.fracDigits.take precision).map Fin.val ++
      List.replicate (precision - a.fracDigits.length) 0).foldl
      (fun acc d => 10 * acc + d) 0

/-! ## Outpoints, seals and coin structures (data/outcoins.rs) -/

/-- A transaction id: a 256-bit hash, modelled as a natural number below
`16 ^ 64` when it comes from a 64-hex-digit string. -/
abbrev Txid := Nat

/-- A confidential seal (outpoint hash), `bp::blind::OutpointHash`. -/
abbrev OutpointHash := Nat

structure OutPoint where
  txid : Txid
  vout : Nat
deriving DecidableEq

/-- `bp::blind::OutpointReveal`: blinding, txid and vout of a revealed seal. -/
structure OutpointReveal where
  blinding : Nat
  txid : Txid
  vout : Nat
deriving DecidableEq

def OutpointReveal.toOutPoint (r : OutpointReveal) : OutPoint :=
  { txid := r.txid, vout := r.vout }

/-- Modelled from the spec: `conceal` is the deterministic one-way hash of a
revealed seal.  Only equality of hashes is observed by the code under
verification, so the hash is modelled as an injective pairing of the fields. -/
def OutpointReveal.conceal (r : OutpointReveal) : OutpointHash :=
  Nat.pair r.blinding (Nat.pair r.txid r.vout)

/-- `rgb::SealDefinition`. -/
inductive SealDefinition where
  | TxOutpoint (blinding : Nat) (txid : Txid) (vout : Nat)
  | WitnessVout (blinding : Nat) (vout : Nat)
deriving DecidableEq

/-- `SealCoins` from data/outcoins.rs: amount, vout, optional txid. -/
structure SealCoins where
  coins : AccountingValue
  vout : Nat
  txid : Option Txid
deriving DecidableEq

/-- `OutpointCoins` from data/outcoins.rs: amount plus a full outpoint. -/
structure OutpointCoins where
  coins : AccountingValue
  outpoint : OutPoint
deriving DecidableEq

/-- `ConsealCoins` from data/outcoins.rs: amount plus a confidential seal. -/
structure ConsealCoins where
  coins : AccountingValue
  seal_confidential : OutpointHash
deriving DecidableEq

/-- `SealCoins::seal_definition`.  The Rust draws a fresh random `u64`
blinding from `thread_rng`; the draw is passed explicitly as `entropy`
(dependency injection, as the repository's design notes prescribe). -/
def SealCoins.seal_definition (x : SealCoins) (entropy : Nat) : SealDefinition :=
  match x.txid with
  | some txid => SealDefinition.TxOutpoint entropy txid x.vout
  | none => SealDefinition.WitnessVout entropy x.vout

/-- `OutpointCoins::seal_definition`, with the RNG draw passed explicitly. -/
def OutpointCoins.seal_definition (x : OutpointCoins) (entropy : Nat) : SealDefinition :=
  SealDefinition.TxOutpoint entropy x.outpoint.txid x.outpoint.vout

/-- `util::SealSpec` (vout plus optional txid), used for prune and
reissue-control seals in `Processor::issue`. -/
structure SealSpec where
  vout : Nat
  txid : Option Txid
deriving DecidableEq

/-- `SealSpec::seal_definition`, with the RNG draw passed explicitly. -/
def SealSpec.seal_definition (x : SealSpec) (entropy : Nat) : SealDefinition :=
  match x.txid with
  | some txid => SealDefinition.TxOutpoint entropy txid x.vout
  | none => SealDefinition.WitnessVout entropy x.vout

/-! ## Ordering and hashing of OutpointCoins (data/outcoins.rs, lines 181-199) -/

/-- The `Ord` instance of the bitcoin crate's `OutPoint` (derived): compare
the txid, then the vout. -/
def OutPoint.cmp (a b : OutPoint) : Ordering :=
  match compare a.txid b.txid with
  | Ordering.eq => compare a.vout b.vout
  | o => o

/-- `impl Ord for OutpointCoins`: `self.outpoint.cmp(&other.outpoint)` —
the amount is ignored. -/
def OutpointCoins.cmp (a b : OutpointCoins) : Ordering :=
  OutPoint.cmp a.outpoint b.outpoint

/-- `impl Hash for OutpointCoins` feeds only `self.outpoint` to the hasher;
the model records exactly the data written to the hasher state. -/
def OutpointCoins.hashFeed (a : OutpointCoins) : OutPoint :=
  a.outpoint

/-! ## Allocations, assets, schema enums -/

/-- The revealed amount state (`amount::Revealed`): the atomic value plus its
commitment blinding factor.  Only the `amount` field is read by the code. -/
structure Revealed where
  amount : Nat
  blinding : Nat
deriving DecidableEq

/-- An allocation: output of a prior state transition (`node_id`, `index`)
carrying a revealed amount. -/
structure Allocation where
  node_id : Nat
  index : Nat
  amount : Revealed
deriving DecidableEq

/-- Association-list lookup (models `BTreeMap` lookups; all key sets in the
modelled code are small and the maps are only read back by key). -/
def assocLookup {α β : Type} [DecidableEq α] : List (α × β) → α → Option β
  | [], _ => none
  | (k, v) :: rest, key => if k = key then some v else assocLookup rest key

/-- Association-list insert with replacement, modelling `BTreeMap::insert`. -/
def assocInsert {α β : Type} [DecidableEq α] : List (α × β) → α → β → List (α × β)
  | [], key, v => [(key, v)]
  | (k, w) :: rest, key, v =>
      if k = key then (key, v) :: rest else (k, w) :: assocInsert rest key v

/-- The asset view kept in the cache.  Modelled from the spec (section 3):
an aggregate keyed by contract id holding precision, supplies and the current
allocation set, here indexed by outpoint as `Asset::allocations` requires. -/
structure Asset where
  id : Nat
  fractional_bits : Nat
  issuedSupply : Nat
  totalSupply : Nat
  allocationsMap : List (OutPoint × List Allocation)
deriving DecidableEq

/-- `Asset::allocations(outpoint)`: the allocations currently known at an
outpoint, `none` when the outpoint is unknown to the asset. -/
def Asset.allocations (a : Asset) (o : OutPoint) : Option (List Allocation) :=
  assocLookup a.allocationsMap o

/-- Append an allocation at an outpoint, materializing the key if absent. -/
def addAlloc : List (OutPoint × List Allocation) → OutPoint → Allocation →
    List (OutPoint × List Allocation)
  | [], o, al => [(o, [al])]
  | (o2, l) :: rest, o, al =>
      if o2 = o then (o2, l ++ [al]) :: rest else (o2, l) :: addAlloc rest o al

/-- Modelled from the spec (section 4.4): `Asset::add_allocation` lives
outside the three source files; per the spec it "adds a new Allocation to the
Asset", and per the design notes no dedup guard is applied before appending. -/
def Asset.add_allocation (a : Asset) (o : OutPoint) (node : Nat) (index : Nat)
    (st : Revealed) : Asset :=
  { a with allocationsMap := addAlloc a.allocationsMap o ⟨node, index, st⟩ }

/-- Remove the first allocation matching the given fields from a list. -/
def removeFirstAlloc : List Allocation → Nat → Nat → Revealed → List Allocation
  | [], _, _, _ => []
  | al :: rest, n, i, v =>
      if al.node_id = n ∧ al.index = i ∧ al.amount = v then rest
      else al :: removeFirstAlloc rest n i v

/-- Modelled from the spec: `Asset::remove_allocation` (outside the three
source files) removes the allocation matching the given outpoint, node id,
index and value. -/
def Asset.remove_allocation (a : Asset) (o : OutPoint) (node : Nat) (index : Nat)
    (v : Revealed) : Asset :=
  { a with allocationsMap :=
      a.allocationsMap.map fun p =>
        if p.1 = o then (p.1, removeFirstAlloc p.2 node index v) else p }

/-- `schema::FieldType` of the fungible schema. -/
inductive FieldType where
  | Ticker | Name | Precision | DustLimit | Timestamp | Description
  | IssuedSupply | TotalSupply
deriving DecidableEq

/-- Metadata field values (`field!` macro payloads). -/
inductive FieldValue where
  | str (s : String)
  | u8 (n : Nat)
  | u64 (n : Nat)
  | i64 (n : Int)
deriving DecidableEq

/-- `schema::AssignmentsType` of the fungible schema. -/
inductive AssignmentsType where
  | Assets | Issue | Prune
deriving DecidableEq

/-- `schema::TransitionType`. -/
inductive TransitionType where
  | Transfer
deriving DecidableEq

/-- An assignment inside a consignment's `DiscreteFiniteField` set, as read
by the accept handler: its confidential seal and, when revealed, its state. -/
structure ConsAssignment where
  seal_definition_confidential : OutpointHash
  assigned_state : Option Revealed
deriving DecidableEq

/-- `AssignmentsVariant`.  `zeroBalanced` opaquely models the external
`AssignmentsVariant::zero_balanced` smart constructor (lnpbp crate): it
records the input amounts, the revealed "ours" outputs and the confidential
"theirs" outputs handed to it.  `discreteFiniteField` is the shape consumed
by the accept handler from consignments, and `declarative` carries
void-state assignments (only their seal definitions matter). -/
inductive AssignmentsVariant where
  | zeroBalanced (inputs : List Revealed) (allocations_ours : List (SealDefinition × Nat))
      (allocations_theirs : List (OutpointHash × Nat))
  | discreteFiniteField (set : List ConsAssignment)
  | declarative (seals : List SealDefinition)
deriving DecidableEq

/-- The ancestor map built by `Processor::transfer`: node id to assignment
type to list of consumed indices (association lists model the `BTreeMap`s). -/
abbrev Ancestors := List (Nat × List (AssignmentsType × List Nat))

/-- Push an index under `(node, ty)` in the ancestor map, creating the inner
entries when absent — `ancestors.entry(node).or_insert(..).entry(ty)
.or_insert(vec![]).push(index)`. -/
def tyPush : List (AssignmentsType × List Nat) → AssignmentsType → Nat →
    List (AssignmentsType × List Nat)
  | [], ty, i => [(ty, [i])]
  | (ty2, idxs) :: rest, ty, i =>
      if ty2 = ty then (ty2, idxs ++ [i]) :: rest else (ty2, idxs) :: tyPush rest ty i

def ancestorsPush (anc : Ancestors) (node : Nat) (ty : AssignmentsType) (i : Nat) :
    Ancestors :=
  match anc with
  | [] => [(node, [(ty, [i])])]
  | (m, tymap) :: rest =>
      if m = node then (m, tyPush tymap ty i) :: rest
      else (m, tymap) :: ancestorsPush rest node ty i

/-- Flatten an ancestor map into the list of `(node, type, index)` references
it contains, used to state completeness properties. -/
def ancestorsFlatten (anc : Ancestors) : List (Nat × AssignmentsType × Nat) :=
  anc.flatMap fun p => p.2.flatMap fun q => q.2.map fun i => (p.1, q.1, i)

/-- A state transition as assembled by `Transition::with(type, metadata,
ancestors, assignments, vec![])`. -/
structure Transition where
  transition_type : TransitionType
  metadata : List (FieldType × FieldValue)
  ancestors : Ancestors
  assignments : List (AssignmentsType × AssignmentsVariant)
deriving DecidableEq

/-- The confidential-output set of a transfer transition: the
`allocations_theirs` list handed to `zero_balanced` under the Assets type. -/
def Transition.confidentialOutputs (t : Transition) : List (OutpointHash × Nat) :=
  match assocLookup t.assignments AssignmentsType.Assets with
  | some (AssignmentsVariant.zeroBalanced _ _ th) => th
  | _ => []

/-- A genesis as assembled by `Genesis::with(schema_id, network, metadata,
assignments, vec![])`.  The contract id is a content hash computed in the
external lnpbp crate; it is modelled as a stored identifier, set to `0` by
`Genesis.with` and chosen freely for consignments built elsewhere. -/
structure Genesis where
  schema_id : Nat
  network : Nat
  metadata : List (FieldType × FieldValue)
  assignments : List (AssignmentsType × AssignmentsVariant)
  contractId : Nat
deriving DecidableEq

def Genesis.with (schema_id network : Nat) (metadata : List (FieldType × FieldValue))
    (assignments : List (AssignmentsType × AssignmentsVariant)) : Genesis :=
  { schema_id, network, metadata, assignments, contractId := 0 }

def Genesis.contract_id (g : Genesis) : Nat := g.contractId

/-- The schema id of `schema::schema()` (opaque content hash, external). -/
def schemaId : Nat := 0

/-- Service error domains, after `error::ServiceErrorDomain`.  `Other`
models the `From<String>` conversion used by the `Err(format!(..))?` and
`Err("..".to_string())?` sites in the processor. -/
inductive ApiErrorType where
  | UnexpectedReply
deriving DecidableEq

inductive ServiceErrorDomain where
  | Schema (msg : String)
  | Internal (msg : String)
  | Cache
  | Stash
  | Api (e : ApiErrorType)
  | Other (msg : String)
deriving DecidableEq

/-- Modelled from the spec: `Asset::try_from(Genesis)` (outside the three
source files) derives the asset view of a genesis: contract id, precision and
supply figures read from the metadata (defaulting to zero where a claim never
exercises the field); allocation extraction is not needed by any claim and the
derived view starts with no indexed allocations. -/
def Asset.tryFrom (g : Genesis) : Except ServiceErrorDomain Asset :=
  Except.ok
    { id := g.contractId
      fractional_bits :=
        match assocLookup g.metadata FieldType.Precision with
        | some (FieldValue.u8 n) => n
        | _ => 0
      issuedSupply :=
        match assocLookup g.metadata FieldType.IssuedSupply with
        | some (FieldValue.u64 n) => n
        | _ => 0
      totalSupply :=
        match assocLookup g.metadata FieldType.TotalSupply with
        | some (FieldValue.u64 n) => n
        | _ => 0
      allocationsMap := [] }

/-! ## Processor (processor.rs) -/

/-- `IssueStructure` from processor.rs. -/
inductive IssueStructure where
  | SingleIssue
  | MultipleIssues (max_supply : AccountingValue) (reissue_control : SealSpec)

/-- The input-collection loop of `Processor::transfer` (lines 166-177):
resolve each input outpoint to its allocations, failing with "Unknown input"
when an outpoint has no allocation entry or an empty one. -/
def collectInputAllocations (asset : Asset) :
    List OutPoint → Except ServiceErrorDomain (List Allocation)
  | [] => Except.ok []
  | sealOutpoint :: rest =>
      match asset.allocations sealOutpoint with
      | none => Except.error (ServiceErrorDomain.Other "Unknown input")
      | some found =>
          if found.length = 0 then Except.error (ServiceErrorDomain.Other "Unknown input")
          else
            match collectInputAllocations asset rest with
            | Except.error e => Except.error e
            | Except.ok tail => Except.ok (found ++ tail)

/-- `total_inputs`: the fold of lines 179-181. -/
def totalInputAmount (allocs : List Allocation) : Nat :=
  allocs.foldl (fun acc alloc => acc + alloc.amount.amount) 0

/-- The `allocations_ours` list of lines 185-192; the i-th RNG draw of the
thread-local generator is passed as `entropy i`. -/
def oursAllocations (entropy : Nat → Nat) (asset : Asset) (ours : List OutpointCoins) :
    List (SealDefinition × Nat) :=
  ours.enum.map fun p =>
    ((p.2).seal_definition (entropy p.1),
      Coins.transmutate (p.2).coins asset.fractional_bits)

/-- The `allocations_theirs` list of lines 193-200 (before any change entry). -/
def theirsAllocations (asset : Asset) (theirs : List ConsealCoins) :
    List (OutpointHash × Nat) :=
  theirs.map fun oc =>
    (oc.seal_confidential, Coins.transmutate oc.coins asset.fractional_bits)

/-- `total_outputs`: sum of all converted ours and theirs amounts. -/
def totalOutputAmount (asset : Asset) (ours : List OutpointCoins)
    (theirs : List ConsealCoins) : Nat :=
  (ours.map fun oc => Coins.transmutate oc.coins asset.fractional_bits).sum +
    (theirs.map fun oc => Coins.transmutate oc.coins asset.fractional_bits).sum

/-- Assembly of the transfer transition (lines 215-240): zero-balanced Assets
assignment from input amounts and the two output lists, and the ancestor map
folded from the consumed allocations. -/
def mkTransferTransition (input_allocations : List Allocation)
    (allocations_ours : List (SealDefinition × Nat))
    (allocations_theirs : List (OutpointHash × Nat)) : Transition :=
  { transition_type := TransitionType.Transfer
    metadata := []
    ancestors := input_allocations.foldl
      (fun anc alloc => ancestorsPush anc alloc.node_id AssignmentsType.Assets alloc.index) []
    assignments := [(AssignmentsType.Assets,
      AssignmentsVariant.zeroBalanced (input_allocations.map fun alloc => alloc.amount)
        allocations_ours allocations_theirs)] }

/-- `Processor::transfer` (processor.rs lines 158-243).  `entropy` injects
the thread-local RNG draws used for the ours seal definitions. -/
def Processor.transfer (entropy : Nat → Nat) (asset : Asset) (inputs : List OutPoint)
    (ours : List OutpointCoins) (theirs : List ConsealCoins)
    (change_outpoint : Option OutpointHash) : Except ServiceErrorDomain Transition :=
  match collectInputAllocations asset inputs with
  | Except.error e => Except.error e
  | Except.ok input_allocations =>
    let total_inputs := totalInputAmount input_allocations
    let allocations_ours := oursAllocations entropy asset ours
    let allocations_theirs := theirsAllocations asset theirs
    let total_outputs := totalOutputAmount asset ours theirs
    if total_inputs < total_outputs then
      Except.error (ServiceErrorDomain.Other "Input amount is lower than output amount")
    else if total_outputs < total_inputs then
      match change_outpoint with
      | none => Except.error (ServiceErrorDomain.Other "Excess input with no change")
      | some chg =>
          Except.ok (mkTransferTransition input_allocations allocations_ours
            (allocations_theirs ++ [(chg, total_inputs - total_outputs)]))
    else
      Except.ok (mkTransferTransition input_allocations allocations_ours allocations_theirs)

/-- `issued_supply` accumulated over the allocation conversions of
`Processor::issue` (lines 88-96). -/
def issuedSupplyOf (allocations : List SealCoins) (precision : Nat) : Nat :=
  (allocations.map fun oc => Coins.transmutate oc.coins precision).sum

/-- The error message of processor.rs lines 112-115. -/
def supplyErrMsg (total_supply issued_supply : Nat) : String :=
  "Total supply (" ++ toString total_supply ++
    ") should be greater than the issued supply (" ++ toString issued_supply ++ ")"

/-- `Processor::issue` (processor.rs lines 64-154).  `now` injects
`Utc::now().timestamp()`; `entropy` injects the RNG stream in draw order
(one draw per allocation seal, then the reissue-control seal for multiple
issues, then one per prune seal). -/
def Processor.issue (entropy : Nat → Nat) (now : Int) (network : Nat)
    (ticker name : String) (description : Option String)
    (issue_structure : IssueStructure) (allocations : List SealCoins)
    (precision : Nat) (prune_seals : List SealSpec) (dust_limit : Option Nat) :
    Except ServiceErrorDomain (Asset × Genesis) :=
  let metadata0 : List (FieldType × FieldValue) :=
    [(FieldType.Ticker, FieldValue.str ticker),
     (FieldType.Name, FieldValue.str name),
     (FieldType.Precision, FieldValue.u8 precision),
     (FieldType.DustLimit, FieldValue.u64 (dust_limit.getD 0)),
     (FieldType.Timestamp, FieldValue.i64 now)]
  let metadata1 :=
    match description with
    | some d => assocInsert metadata0 FieldType.Description (FieldValue.str d)
    | none => metadata0
  let alloc_pairs := allocations.enum.map fun p =>
    ((p.2).seal_definition (entropy p.1), Coins.transmutate (p.2).coins precision)
  let issued_supply := issuedSupplyOf allocations precision
  let assignments0 : List (AssignmentsType × AssignmentsVariant) :=
    [(AssignmentsType.Assets, AssignmentsVariant.zeroBalanced [] alloc_pairs [])]
  let metadata2 := assocInsert metadata1 FieldType.IssuedSupply (FieldValue.u64 issued_supply)
  let pruneVariant : AssignmentsVariant := AssignmentsVariant.declarative
    (prune_seals.enum.map fun p =>
      (p.2).seal_definition (entropy (allocations.length +
        (match issue_structure with
         | IssueStructure.MultipleIssues _ _ => 1
         | IssueStructure.SingleIssue => 0) + p.1)))
  match issue_structure with
  | IssueStructure.MultipleIssues max_supply reissue_control =>
      let total_supply := Coins.transmutate max_supply precision
      if total_supply < issued_supply then
        Except.error (ServiceErrorDomain.Schema (supplyErrMsg total_supply issued_supply))
      else
        let metadata3 := assocInsert metadata2 FieldType.TotalSupply (FieldValue.u64 total_supply)
        let assignments1 := assocInsert assignments0 AssignmentsType.Issue
          (AssignmentsVariant.declarative
            [reissue_control.seal_definition (entropy allocations.length)])
        let assignments2 := assocInsert assignments1 AssignmentsType.Prune pruneVariant
        let genesis := Genesis.with schemaId network metadata3 assignments2
        match Asset.tryFrom genesis with
        | Except.error e => Except.error e
        | Except.ok asset => Except.ok (asset, genesis)
  | IssueStructure.SingleIssue =>
      let total_supply := issued_supply
      let metadata3 := assocInsert metadata2 FieldType.TotalSupply (FieldValue.u64 total_supply)
      let assignments2 := assocInsert assignments0 AssignmentsType.Prune pruneVariant
      let genesis := Genesis.with schemaId network metadata3 assignments2
      match Asset.tryFrom genesis with
      | Except.error e => Except.error e
      | Except.ok asset => Except.ok (asset, genesis)

/-! ## Runtime orchestrator (runtime.rs)

The runtime's effects are embedded explicitly: the stash service is an
oracle `StashRequest → Reply` (the reply the external daemon would send),
the cache is a plain value threaded through, and every handler returns the
ordered list of side-effecting events it performed (stash round trips and
cache mutations) along with the new cache and its reply-or-error. -/

/-- A consignment transition as read by the accept handler: its node id and
its owned-rights map (queried only at the Assets type). -/
structure ConsTransition where
  node_id : Nat
  ownedRights : List (AssignmentsType × AssignmentsVariant)
deriving DecidableEq

/-- `transition.owned_rights_by_type(ty)`: all variants stored under `ty`. -/
def ConsTransition.owned_rights_by_type (t : ConsTransition) (ty : AssignmentsType) :
    List AssignmentsVariant :=
  (t.ownedRights.filter fun p => p.1 = ty).map fun p => p.2

/-- A consignment: genesis plus anchored state transitions. -/
structure Consignment where
  genesis : Genesis
  state_transitions : List (Nat × ConsTransition)
deriving DecidableEq

/-- `api::fungible::AcceptApi`. -/
structure AcceptApi where
  consignment : Consignment
  reveal_outpoints : List OutpointReveal
deriving DecidableEq

/-- `api::stash::MergeRequest`. -/
structure MergeRequest where
  consignment : Consignment
  reveal_outpoints : List OutpointReveal
deriving DecidableEq

/-- `api::stash::Request`, restricted to the variants the runtime sends. -/
inductive StashRequest where
  | AddSchema
  | AddGenesis (g : Genesis)
  | ReadGenesis (id : Nat)
  | Validate (c : Consignment)
  | Merge (m : MergeRequest)
  | Forget (removal_list : List (Nat × Nat))
deriving DecidableEq

/-- `api::Reply`, restricted to the variants the modelled handlers inspect. -/
inductive Reply where
  | Success
  | Failure (msg : String)
  | Nothing
  | Genesis (g : Genesis)
  | TransferReply (payload : Nat)
deriving DecidableEq

/-- A side-effecting event of a handler: a stash round trip being issued, or
a cache mutation (`Cache::add_asset`). -/
inductive Event where
  | stashReq (req : StashRequest)
  | cacheAdd (a : Asset)

/-- The asset cache, keyed by contract id (`FileCache` behind the `Cache`
trait, an external collaborator; modelled as the list of stored assets). -/
abbrev Cache := List Asset

def Cache.assetById (c : Cache) (id : Nat) : Option Asset :=
  c.find? fun a => a.id = id

def Cache.has_asset (c : Cache) (id : Nat) : Bool :=
  (Cache.assetById c id).isSome

/-- `Cache::add_asset`: insert or replace by contract id; the returned flag
reports whether the asset was newly added. -/
def Cache.add_asset (c : Cache) (a : Asset) : Cache × Bool :=
  match c with
  | [] => ([a], true)
  | b :: rest =>
      if b.id = a.id then (a :: rest, false)
      else
        let r := Cache.add_asset rest a
        (b :: r.1, r.2)

/-- `Runtime::stash_req_rep` (runtime.rs lines 529-542): send the request,
read the reply, and turn a `Failure` reply into `ServiceErrorDomain::Stash`
before the caller ever sees it. -/
def Runtime.stashReqRep (oracle : StashRequest → Reply) (req : StashRequest) :
    List Event × Except ServiceErrorDomain Reply :=
  ([Event.stashReq req],
    match oracle req with
    | Reply.Failure _ => Except.error ServiceErrorDomain.Stash
    | r => Except.ok r)

/-- `Runtime::validate` (runtime.rs lines 412-424).  The `Failure` arm of its
match mirrors the source but is unreachable: `stash_req_rep` already turned
any `Failure` reply into an error. -/
def Runtime.validate (oracle : StashRequest → Reply) (c : Consignment) :
    List Event × Except ServiceErrorDomain Reply :=
  let r := Runtime.stashReqRep oracle (StashRequest.Validate c)
  (r.1,
    match r.2 with
    | Except.error e => Except.error e
    | Except.ok Reply.Success => Except.ok Reply.Success
    | Except.ok (Reply.Failure m) => Except.ok (Reply.Failure m)
    | Except.ok _ => Except.error (ServiceErrorDomain.Api ApiErrorType.UnexpectedReply))

/-- `Runtime::rpc_validate` (runtime.rs lines 290-297): run `validate`,
propagate its error, and reply `Success` otherwise (the passed-through reply
value is discarded). -/
def Runtime.rpcValidate (oracle : StashRequest → Reply) (c : Consignment) :
    List Event × Except ServiceErrorDomain Reply :=
  let r := Runtime.validate oracle c
  (r.1,
    match r.2 with
    | Except.error e => Except.error e
    | Except.ok _ => Except.ok Reply.Success)

/-- `Runtime::import_asset` (runtime.rs lines 371-383): forward the genesis
to the stash, and only on a `Success` reply add the asset to the cache. -/
def Runtime.importAsset (oracle : StashRequest → Reply) (cache : Cache)
    (asset : Asset) (genesis : Genesis) :
    List Event × Cache × Except ServiceErrorDomain Bool :=
  let r := Runtime.stashReqRep oracle (StashRequest.AddGenesis genesis)
  match r.2 with
  | Except.error e => (r.1, cache, Except.error e)
  | Except.ok Reply.Success =>
      let p := Cache.add_asset cache asset
      (r.1 ++ [Event.cacheAdd asset], p.1, Except.ok p.2)
  | Except.ok _ => (r.1, cache, Except.error (ServiceErrorDomain.Api ApiErrorType.UnexpectedReply))

/-- The inner assignment loop of `Runtime::accept` (runtime.rs lines
449-473): walk one `DiscreteFiniteField` set with indices, and for every
assignment whose confidential seal matches a caller-revealed outpoint add an
allocation (failing when the matched assignment carries no revealed state). -/
def acceptApplyAssignments (reveals : List OutpointReveal) (node : Nat) :
    Asset → List (Nat × ConsAssignment) → Except ServiceErrorDomain Asset
  | a0, [] => Except.ok a0
  | a0, (index, asg) :: rest =>
      match reveals.find? fun op => OutpointReveal.conceal op = asg.seal_definition_confidential with
      | some op =>
          match asg.assigned_state with
          | some st =>
              acceptApplyAssignments reveals node
                (a0.add_allocation op.toOutPoint node index st) rest
          | none => Except.error (ServiceErrorDomain.Internal "Consignment structure is broken")
      | none => acceptApplyAssignments reveals node a0 rest

/-- The variant loop of `Runtime::accept` (lines 447-474). -/
def acceptApplyVariants (reveals : List OutpointReveal) (node : Nat) :
    Asset → List AssignmentsVariant → Except ServiceErrorDomain Asset
  | a0, [] => Except.ok a0
  | a0, v :: rest =>
      match v with
      | AssignmentsVariant.discreteFiniteField set =>
          match acceptApplyAssignments reveals node a0 set.enum with
          | Except.error e => Except.error e
          | Except.ok a1 => acceptApplyVariants reveals node a1 rest
      | _ => acceptApplyVariants reveals node a0 rest

/-- The transition loop of `Runtime::accept` (lines 444-476). -/
def acceptApplyTransitions (reveals : List OutpointReveal) :
    Asset → List (Nat × ConsTransition) → Except ServiceErrorDomain Asset
  | a0, [] => Except.ok a0
  | a0, (_, t) :: rest =>
      match acceptApplyVariants reveals t.node_id a0
          (t.owned_rights_by_type AssignmentsType.Assets) with
      | Except.error e => Except.error e
      | Except.ok a1 => acceptApplyTransitions reveals a1 rest

/-- The asset resolution of `Runtime::accept` (lines 437-442): fetch the
asset from the cache when present, otherwise materialize it from the
consignment's genesis. -/
def acceptAsset0 (cache : Cache) (g : Genesis) : Except ServiceErrorDomain Asset :=
  match Cache.assetById cache g.contract_id with
  | some cached => Except.ok cached
  | none => Asset.tryFrom g

/-- `Runtime::accept` (runtime.rs lines 426-485): merge via the stash, then
on `Success` materialize or fetch the asset, apply every matching revealed
assignment as a new allocation, and write the asset back to the cache.  The
`Failure` arm mirrors the source but is unreachable behind `stash_req_rep`. -/
def Runtime.accept (oracle : StashRequest → Reply) (cache : Cache) (a : AcceptApi) :
    List Event × Cache × Except ServiceErrorDomain Reply :=
  let r := Runtime.stashReqRep oracle
    (StashRequest.Merge { consignment := a.consignment, reveal_outpoints := a.reveal_outpoints })
  match r.2 with
  | Except.error e => (r.1, cache, Except.error e)
  | Except.ok Reply.Success =>
      match acceptAsset0 cache a.consignment.genesis with
      | Except.error e => (r.1, cache, Except.error e)
      | Except.ok a0 =>
          match acceptApplyTransitions a.reveal_outpoints a0 a.consignment.state_transitions with
          | Except.error e => (r.1, cache, Except.error e)
          | Except.ok a1 =>
              (r.1 ++ [Event.cacheAdd a1], (Cache.add_asset cache a1).1, Except.ok Reply.Success)
  | Except.ok (Reply.Failure m) => (r.1, cache, Except.ok (Reply.Failure m))
  | Except.ok _ => (r.1, cache, Except.error (ServiceErrorDomain.Api ApiErrorType.UnexpectedReply))

/-- The per-asset loop of `Runtime::forget` (runtime.rs lines 498-514): for
each cached asset, resolve the outpoint's allocations (`Cache` error when the
outpoint is unknown to the asset), remove them, collect their
`(node_id, index)` pairs, and write the asset back — a cache mutation that
happens before any stash call. -/
def forgetLoop (outpoint : OutPoint) :
    List Asset → Cache → List Event → List (Nat × Nat) →
    Cache × List Event × Except ServiceErrorDomain (List (Nat × Nat))
  | [], cache, tr, removal_list => (cache, tr, Except.ok removal_list)
  | a0 :: rest, cache, tr, removal_list =>
      match a0.allocations outpoint with
      | none => (cache, tr, Except.error ServiceErrorDomain.Cache)
      | some allocs =>
          let a1 := allocs.foldl
            (fun acc al => Asset.remove_allocation acc outpoint al.node_id al.index al.amount) a0
          let removal2 := removal_list ++ allocs.map fun al => (al.node_id, al.index)
          forgetLoop outpoint rest (Cache.add_asset cache a1).1
            (tr ++ [Event.cacheAdd a1]) removal2

/-- `Runtime::forget` (runtime.rs lines 487-527): scan and rewrite every
cached asset, reply `Nothing` when no allocation was found, otherwise ask the
stash to forget the collected nodes.  The `Failure` arm mirrors the source
but is unreachable behind `stash_req_rep`. -/
def Runtime.forget (oracle : StashRequest → Reply) (cache : Cache) (outpoint : OutPoint) :
    List Event × Cache × Except ServiceErrorDomain Reply :=
  let step := forgetLoop outpoint cache cache [] []
  match step.2.2 with
  | Except.error e => (step.2.1, step.1, Except.error e)
  | Except.ok removal_list =>
      if removal_list.isEmpty then (step.2.1, step.1, Except.ok Reply.Nothing)
      else
        let r := Runtime.stashReqRep oracle (StashRequest.Forget removal_list)
        (step.2.1 ++ r.1, step.1,
          match r.2 with
          | Except.error e => Except.error e
          | Except.ok Reply.Success => Except.ok Reply.Success
          | Except.ok (Reply.Failure m) => Except.ok (Reply.Failure m)
          | Except.ok _ => Except.error (ServiceErrorDomain.Api ApiErrorType.UnexpectedReply))

/-- Decides whether a trace performed a cache mutation strictly before some
later stash request: the violation of the "call Stash before mutating Cache"
ordering invariant. -/
def cacheMutBeforeStash : List Event → Bool
  | [] => false
  | Event.cacheAdd _ :: rest =>
      rest.any (fun e => match e with | Event.stashReq _ => true | _ => false) ||
        cacheMutBeforeStash rest
  | Event.stashReq _ :: rest => cacheMutBeforeStash rest

/-! ## Textual coin notations (data/outcoins.rs, lines 98-179)

The parsers below model the anchored regular expressions of the source and
the component numeric parses they delegate to (`f32`, `u32`, 64-hex-digit
hashes).  They operate on the character list of the input, lowercased first
exactly where the source calls `to_ascii_lowercase`. -/

/-- `ParseError` from the error module: all textual failures collapse to it. -/
inductive ParseError where
  | parseError
deriving DecidableEq

/-- The character class of the regex amount group `[\d.,_']+` (the last
member is the apostrophe, code 39). -/
def isCoinClassChar (c : Char) : Bool :=
  c.isDigit || c = '.' || c = ',' || c = '_' || c.toNat = 39

/-- The character class of the regex txid/seal groups `[a-f\d]{64}`. -/
def isHexClassChar (c : Char) : Bool :=
  c.isDigit || ('a' ≤ c && c ≤ 'f')

/-- Decimal digit to character. -/
def digitChar : Nat → Char
  | 0 => '0' | 1 => '1' | 2 => '2' | 3 => '3' | 4 => '4'
  | 5 => '5' | 6 => '6' | 7 => '7' | 8 => '8' | _ => '9'

/-- Hexadecimal digit to (lowercase) character. -/
def hexChar : Nat → Char
  | 0 => '0' | 1 => '1' | 2 => '2' | 3 => '3' | 4 => '4'
  | 5 => '5' | 6 => '6' | 7 => '7' | 8 => '8' | 9 => '9'
  | 10 => 'a' | 11 => 'b' | 12 => 'c' | 13 => 'd' | 14 => 'e' | _ => 'f'

/-- Numeric value of a decimal digit character. -/
def charDigitVal (c : Char) : Nat := c.toNat - 48

/-- Numeric value of a lowercase hexadecimal digit character. -/
def charHexVal (c : Char) : Nat :=
  if c.isDigit then c.toNat - 48 else c.toNat - 87

/-- Value of a digit string under a base, folding left as positional parsers
do: `acc * base + digit`. -/
def charsVal (base : Nat) (val : Char → Nat) (cs : List Char) : Nat :=
  cs.foldl (fun acc c => base * acc + val c) 0

/-- Little-endian base-`b` digits with explicit fuel, so that the function
reduces definitionally (`Nat.digits` is well-founded recursion and does not);
`natDigits` below instantiates the fuel with the number itself, which always
suffices for bases of at least two. -/
def digitsFuel (b : Nat) : Nat → Nat → List Nat
  | _, 0 => []
  | 0, _ + 1 => []
  | fuel + 1, m + 1 => ((m + 1) % b) :: digitsFuel b fuel ((m + 1) / b)

def natDigits (b n : Nat) : List Nat := digitsFuel b n n

/-- Decimal representation of a natural number (what `Display` prints for the
integer components: `u32` vout, and the integral part of amounts). -/
def natChars (n : Nat) : List Char :=
  if n = 0 then ['0'] else (natDigits 10 n).reverse.map digitChar

/-- Fixed-width 64-hex-digit representation of a hash value (what the txid
and outpoint-hash `Display` impls print): zero-padded big-endian nibbles. -/
def hexChars64 (n : Nat) : List Char :=
  List.replicate (64 - (natDigits 16 n).length) '0' ++
    (natDigits 16 n).reverse.map hexChar

/-- Split a character list at the first occurrence of a separator, returning
the prefix and — when the separator occurs — the remainder after it. -/
def splitFirst (sep : Char) : List Char → List Char × Option (List Char)
  | [] => ([], none)
  | c :: rest =>
      if c = sep then ([], some rest)
      else
        let r := splitFirst sep rest
        (c :: r.1, r.2)

/-- Split a character list at every occurrence of a separator (the behavior
of Rust's `str::split(char)`): always at least one part. -/
def splitAll (sep : Char) : List Char → List (List Char)
  | [] => [[]]
  | c :: rest =>
      let r := splitAll sep rest
      if c = sep then [] :: r
      else
        match r with
        | h :: t => (c :: h) :: t
        | [] => [[c]]

/-- Fin-10 digit of a digit character (total; meaningful on digit chars). -/
def charDigitFin (c : Char) : Fin 10 :=
  ⟨charDigitVal c % 10, Nat.mod_lt _ (by norm_num)⟩

/-- The decimal display of an `AccountingValue`: integral part, then the
fractional digits after a point when any are present.  Models the `f32`
`Display` on the values the source round-trips. -/
def AccountingValue.chars (a : AccountingValue) : List Char :=
  natChars a.int ++
    (match a.fracDigits with
     | [] => []
     | ds => '.' :: ds.map fun d => digitChar d.val)

/-- Modelled from the spec: the amount parse (`str::parse::<f32>` in the
source, an external component) on the plain decimal forms the coin notations
admit: digits with at most one point and at least one digit present; digit
grouping separators matched by the regex class make this parse fail, exactly
as they make `f32::from_str` fail. -/
def AccountingValue.fromChars (cs : List Char) : Option AccountingValue :=
  let p := splitFirst '.' cs
  match p.2 with
  | none =>
      if cs ≠ [] ∧ cs.all Char.isDigit then
        some ⟨charsVal 10 charDigitVal cs, []⟩
      else none
  | some fracPart =>
      if (p.1.all Char.isDigit ∧ fracPart.all Char.isDigit) ∧
          (p.1 ≠ [] ∨ fracPart ≠ []) ∧ fracPart.all (fun c => c ≠ '.') then
        some ⟨charsVal 10 charDigitVal p.1, fracPart.map charDigitFin⟩
      else none

/-- `impl Display for SealCoins` (lines 98-106): amount, `@`, the txid
followed by `:` when present, then the vout. -/
def SealCoins.displayChars (x : SealCoins) : List Char :=
  x.coins.chars ++ '@' ::
    ((match x.txid with
      | some t => hexChars64 t ++ [':']
      | none => []) ++ natChars x.vout)

def SealCoins.display (x : SealCoins) : String := ⟨x.displayChars⟩

/-- The bitcoin crate's `OutPoint` `Display`: `txid:vout`. -/
def OutPoint.displayChars (o : OutPoint) : List Char :=
  hexChars64 o.txid ++ ':' :: natChars o.vout

/-- `#[display("{coins}@{outpoint}")]` for OutpointCoins. -/
def OutpointCoins.displayChars (x : OutpointCoins) : List Char :=
  x.coins.chars ++ '@' :: x.outpoint.displayChars

def OutpointCoins.display (x : OutpointCoins) : String := ⟨x.displayChars⟩

/-- `#[display("{coins}@{seal_confidential}")]` for ConsealCoins. -/
def ConsealCoins.displayChars (x : ConsealCoins) : List Char :=
  x.coins.chars ++ '@' :: hexChars64 x.seal_confidential

def ConsealCoins.display (x : ConsealCoins) : String := ⟨x.displayChars⟩

/-- `impl FromStr for SealCoins` (lines 108-139) on lowercased characters.
The anchored regex is `^[\d.,_']+@([a-f\d]{64}:)(\d+)$`: the amount group is
the maximal prefix of amount-class characters, the txid group is present in
every match (the source's `(coins, none, vout)` arm is unreachable), and the
txid, vout and amount component parses follow the match. -/
def SealCoins.fromChars (cs : List Char) : Except ParseError SealCoins :=
  let coinsPart := cs.takeWhile isCoinClassChar
  match cs.dropWhile isCoinClassChar with
  | sepAt :: rest =>
      if sepAt = '@' ∧ coinsPart ≠ [] then
        let txidPart := rest.take 64
        match rest.drop 64 with
        | sepColon :: voutPart =>
            if sepColon = ':' ∧ (txidPart.length = 64 ∧ txidPart.all isHexClassChar) ∧
                voutPart ≠ [] ∧ voutPart.all Char.isDigit then
              match AccountingValue.fromChars coinsPart with
              | some coins =>
                  if charsVal 10 charDigitVal voutPart < 2 ^ 32 then
                    Except.ok
                      { coins
                        vout := charsVal 10 charDigitVal voutPart
                        txid := some (charsVal 16 charHexVal txidPart) }
                  else Except.error ParseError.parseError
              | none => Except.error ParseError.parseError
            else Except.error ParseError.parseError
        | [] => Except.error ParseError.parseError
      else Except.error ParseError.parseError
  | [] => Except.error ParseError.parseError

def SealCoins.fromStr (s : String) : Except ParseError SealCoins :=
  SealCoins.fromChars (s.toList.map Char.toLower)

/-- The bitcoin crate's `OutPoint` `FromStr`: `txid:vout` with a 64-hex-digit
txid and a `u32` vout (external collaborator, modelled on lowercase hex). -/
def OutPoint.fromChars (cs : List Char) : Option OutPoint :=
  let p := splitFirst ':' cs
  match p.2 with
  | none => none
  | some voutPart =>
      if (p.1.length = 64 ∧ p.1.all isHexClassChar) ∧
          voutPart ≠ [] ∧ voutPart.all Char.isDigit ∧
          charsVal 10 charDigitVal voutPart < 2 ^ 32 then
        some { txid := charsVal 16 charHexVal p.1, vout := charsVal 10 charDigitVal voutPart }
      else none

/-- `impl FromStr for OutpointCoins` (lines 141-154): split on `@`, require
exactly two parts, and parse the amount and the outpoint. -/
def OutpointCoins.fromStr (s : String) : Except ParseError OutpointCoins :=
  match splitAll '@' s.toList with
  | [amountPart, outpointPart] =>
      match AccountingValue.fromChars amountPart, OutPoint.fromChars outpointPart with
      | some coins, some op => Except.ok { coins, outpoint := op }
      | _, _ => Except.error ParseError.parseError
  | _ => Except.error ParseError.parseError

/-- `impl FromStr for ConsealCoins` (lines 156-179) on lowercased characters:
regex `^[\d.,_']+@([a-f\d]{64})$`. -/
def ConsealCoins.fromChars (cs : List Char) : Except ParseError ConsealCoins :=
  let coinsPart := cs.takeWhile isCoinClassChar
  match cs.dropWhile isCoinClassChar with
  | sepAt :: rest =>
      if sepAt = '@' ∧ coinsPart ≠ [] ∧ rest.length = 64 ∧ rest.all isHexClassChar then
        match AccountingValue.fromChars coinsPart with
        | some coins => Except.ok { coins, seal_confidential := charsVal 16 charHexVal rest }
        | none => Except.error ParseError.parseError
      else Except.error ParseError.parseError
  | [] => Except.error ParseError.parseError

def ConsealCoins.fromStr (s : String) : Except ParseError ConsealCoins :=
  ConsealCoins.fromChars (s.toList.map Char.toLower)

/-! ## Concrete instances used by closed theorems and witnesses -/

/-- A stash oracle that replies `Success` to every request. -/
def oracleSuccess : StashRequest → Reply := fun _ => Reply.Success

/-- A stash oracle that replies `Failure` to every request. -/
def oracleFailure : StashRequest → Reply := fun _ => Reply.Failure "reason"

/-- An empty consignment over a minimal genesis (contract id 5). -/
def genesisEx : Genesis :=
  { schema_id := 0, network := 0, metadata := [], assignments := [], contractId := 5 }

def consignmentEx : Consignment := { genesis := genesisEx, state_transitions := [] }

/-- A revealed outpoint and a consignment whose single transition assigns
state 7 to that outpoint's confidential seal. -/
def opRevealEx : OutpointReveal := { blinding := 1, txid := 2, vout := 3 }

def consAssignEx : ConsAssignment :=
  { seal_definition_confidential := opRevealEx.conceal, assigned_state := some ⟨7, 0⟩ }

def consTransitionEx : ConsTransition :=
  { node_id := 9
    ownedRights := [(AssignmentsType.Assets, AssignmentsVariant.discreteFiniteField [consAssignEx])] }

def acceptApiEx : AcceptApi :=
  { consignment := { genesis := genesisEx, state_transitions := [(0, consTransitionEx)] }
    reveal_outpoints := [opRevealEx] }

/-- An asset with a single allocation of 5 units at outpoint (1, 2),
produced by transition-output (1, 0). -/
def assetEx : Asset :=
  { id := 0, fractional_bits := 0, issuedSupply := 5, totalSupply := 5
    allocationsMap := [(⟨1, 2⟩, [⟨1, 0, ⟨5, 0⟩⟩])] }

/-- Same asset shape used for the forget counterexample (node id 7). -/
def assetForgetEx : Asset :=
  { id := 0, fractional_bits := 0, issuedSupply := 5, totalSupply := 5
    allocationsMap := [(⟨1, 2⟩, [⟨7, 0, ⟨5, 0⟩⟩])] }

/-- The transition produced by transferring `assetEx`'s single allocation to
one confidential output of 5 units. -/
def transitionEx : Transition :=
  { transition_type := TransitionType.Transfer
    metadata := []
    ancestors := [(1, [(AssignmentsType.Assets, [0])])]
    assignments := [(AssignmentsType.Assets,
      AssignmentsVariant.zeroBalanced [⟨5, 0⟩] [] [(99, 5)])] }

end RgbNode

namespace RgbNode

/-! ## Association-list helper lemmas -/

theorem assocLookup_insert_self {α β : Type} [DecidableEq α]
    (l : List (α × β)) (k : α) (v : β) :
    assocLookup (assocInsert l k v) k = some v := by
  induction l with
  | nil => simp [assocInsert, assocLookup]
  | cons p rest ih =>
      by_cases h : p.1 = k
      · simp [assocInsert, assocLookup, h]
      · simpa [assocInsert, assocLookup, h] using ih

theorem assocLookup_insert_ne {α β : Type} [DecidableEq α]
    (l : List (α × β)) (k k2 : α) (v : β) (h : k ≠ k2) :
    assocLookup (assocInsert l k v) k2 = assocLookup l k2 := by
  induction l with
  | nil => simp [assocInsert, assocLookup, h]
  | cons p rest ih =>
      by_cases h2 : p.1 = k
      · simp [assocInsert, assocLookup, h2, h]
      · by_cases h3 : p.1 = k2 <;> simp [assocInsert, assocLookup, h2, h3, ih, Ne.symm h]

/-! ## Claim theorems -/

/-- C1: balance conservation of `Processor::transfer`.  When the input
outpoints resolve to `allocs`: equal input and output sums succeed with no
change entry appended to the confidential-output set; a smaller input sum
fails with the overspend error; a larger input sum without a change outpoint
fails with the excess-input error; a larger input sum with a change outpoint
succeeds with exactly one extra confidential entry
`(change, total_inputs - total_outputs)`. -/
theorem C1_balance_conservation (entropy : Nat → Nat) (asset : Asset)
    (inputs : List OutPoint) (ours : List OutpointCoins) (theirs : List ConsealCoins)
    (change_outpoint : Option OutpointHash) (allocs : List Allocation)
    (hres : collectInputAllocations asset inputs = Except.ok allocs) :
    (totalInputAmount allocs = totalOutputAmount asset ours theirs →
      ∃ t, Processor.transfer entropy asset inputs ours theirs change_outpoint = Except.ok t ∧
        t.confidentialOutputs = theirsAllocations asset theirs) ∧
    (totalInputAmount allocs < totalOutputAmount asset ours theirs →
      Processor.transfer entropy asset inputs ours theirs change_outpoint =
        Except.error (ServiceErrorDomain.Other "Input amount is lower than output amount")) ∧
    (totalOutputAmount asset ours theirs < totalInputAmount allocs → change_outpoint = none →
      Processor.transfer entropy asset inputs ours theirs change_outpoint =
        Except.error (ServiceErrorDomain.Other "Excess input with no change")) ∧
    (∀ chg, totalOutputAmount asset ours theirs < totalInputAmount allocs →
      change_outpoint = some chg →
      ∃ t, Processor.transfer entropy asset inputs ours theirs change_outpoint = Except.ok t ∧
        t.confidentialOutputs = theirsAllocations asset theirs ++
          [(chg, totalInputAmount allocs - totalOutputAmount asset ours theirs)]) := by
  refine ⟨?_, ?_, ?_, ?_⟩
  · intro h
    refine ⟨mkTransferTransition allocs (oursAllocations entropy asset ours)
      (theirsAllocations asset theirs), ?_, ?_⟩
    · simp [Processor.transfer, hres, h, lt_irrefl]
    · simp [mkTransferTransition, Transition.confidentialOutputs, assocLookup]
  · intro h
    simp [Processor.transfer, hres, h]
  · intro h hchg
    have h2 : ¬ totalInputAmount allocs < totalOutputAmount asset ours theirs :=
      Nat.not_lt.mpr (Nat.le_of_lt h)
    simp [Processor.transfer, hres, h, h2, hchg]
  · intro chg h hchg
    have h2 : ¬ totalInputAmount allocs < totalOutputAmount asset ours theirs :=
      Nat.not_lt.mpr (Nat.le_of_lt h)
    refine ⟨mkTransferTransition allocs (oursAllocations entropy asset ours)
      (theirsAllocations asset theirs ++
        [(chg, totalInputAmount allocs - totalOutputAmount asset ours theirs)]), ?_, ?_⟩
    · simp [Processor.transfer, hres, h, h2, hchg]
    · simp [mkTransferTransition, Transition.confidentialOutputs, assocLookup]

/-- Witness for C1 at a concrete call: one input allocation of 5 units,
one "theirs" output of 5 at precision 0, no change outpoint. -/
theorem C1_balance_conservation_witness :
    collectInputAllocations assetEx [⟨1, 2⟩] = Except.ok [⟨1, 0, ⟨5, 0⟩⟩] ∧
    ((totalInputAmount [⟨1, 0, ⟨5, 0⟩⟩] =
        totalOutputAmount assetEx [] [⟨⟨5, []⟩, 99⟩] →
      ∃ t, Processor.transfer (fun _ => 0) assetEx [⟨1, 2⟩] [] [⟨⟨5, []⟩, 99⟩] none =
          Except.ok t ∧
        t.confidentialOutputs = theirsAllocations assetEx [⟨⟨5, []⟩, 99⟩]) ∧
    (totalInputAmount [⟨1, 0, ⟨5, 0⟩⟩] < totalOutputAmount assetEx [] [⟨⟨5, []⟩, 99⟩] →
      Processor.transfer (fun _ => 0) assetEx [⟨1, 2⟩] [] [⟨⟨5, []⟩, 99⟩] none =
        Except.error (ServiceErrorDomain.Other "Input amount is lower than output amount")) ∧
    (totalOutputAmount assetEx [] [⟨⟨5, []⟩, 99⟩] < totalInputAmount [⟨1, 0, ⟨5, 0⟩⟩] →
      (none : Option OutpointHash) = none →
      Processor.transfer (fun _ => 0) assetEx [⟨1, 2⟩] [] [⟨⟨5, []⟩, 99⟩] none =
        Except.error (ServiceErrorDomain.Other "Excess input with no change")) ∧
    (∀ chg, totalOutputAmount assetEx [] [⟨⟨5, []⟩, 99⟩] < totalInputAmount [⟨1, 0, ⟨5, 0⟩⟩] →
      (none : Option OutpointHash) = some chg →
      ∃ t, Processor.transfer (fun _ => 0) assetEx [⟨1, 2⟩] [] [⟨⟨5, []⟩, 99⟩] none =
          Except.ok t ∧
        t.confidentialOutputs = theirsAllocations assetEx [⟨⟨5, []⟩, 99⟩] ++
          [(chg, totalInputAmount [⟨1, 0, ⟨5, 0⟩⟩] -
            totalOutputAmount assetEx [] [⟨⟨5, []⟩, 99⟩])])) :=
  ⟨by decide,
    C1_balance_conservation (fun _ => 0) assetEx [⟨1, 2⟩] [] [⟨⟨5, []⟩, 99⟩] none
      [⟨1, 0, ⟨5, 0⟩⟩] (by decide)⟩

/-- C2: the supply invariant of `Processor::issue` with `MultipleIssues`.
When the transmutated max supply is below the accumulated issued supply the
call fails with the schema-violation error and produces no pair; otherwise
it succeeds, the genesis records `TotalSupply = transmutate(max_supply,
precision)`, the reissue-control declarative assignment is emitted under the
Issue type, and the derived asset carries that total supply. -/
theorem C2_supply_invariant (entropy : Nat → Nat) (now : Int) (network : Nat)
    (ticker name : String) (description : Option String) (max_supply : AccountingValue)
    (reissue_control : SealSpec) (allocations : List SealCoins) (precision : Nat)
    (prune_seals : List SealSpec) (dust_limit : Option Nat) :
    (Coins.transmutate max_supply precision < issuedSupplyOf allocations precision →
      Processor.issue entropy now network ticker name description
          (IssueStructure.MultipleIssues max_supply reissue_control) allocations precision
          prune_seals dust_limit =
        Except.error (ServiceErrorDomain.Schema
          (supplyErrMsg (Coins.transmutate max_supply precision)
            (issuedSupplyOf allocations precision)))) ∧
    (issuedSupplyOf allocations precision ≤ Coins.transmutate max_supply precision →
      ∃ asset genesis,
        Processor.issue entropy now network ticker name description
            (IssueStructure.MultipleIssues max_supply reissue_control) allocations precision
            prune_seals dust_limit = Except.ok (asset, genesis) ∧
        assocLookup genesis.metadata FieldType.TotalSupply =
          some (FieldValue.u64 (Coins.transmutate max_supply precision)) ∧
        assocLookup genesis.assignments AssignmentsType.Issue =
          some (AssignmentsVariant.declarative
            [reissue_control.seal_definition (entropy allocations.length)]) ∧
        asset.totalSupply = Coins.transmutate max_supply precision) := by
  constructor
  · intro h
    simp [Processor.issue, h]
  · intro h
    have h2 : ¬ Coins.transmutate max_supply precision < issuedSupplyOf allocations precision :=
      Nat.not_lt.mpr h
    unfold Processor.issue
    simp only [if_neg h2, Asset.tryFrom]
    refine ⟨_, _, rfl, ?_, ?_, ?_⟩
    · simp [Genesis.with, assocLookup_insert_self]
    · simp only [Genesis.with]
      rw [assocLookup_insert_ne _ _ _ _ (by decide), assocLookup_insert_self]
    · simp [Genesis.with, assocLookup_insert_self]

/-- Witness for C2 at a concrete call: one allocation of 10 units at
precision 0 against a max supply of 5 triggers the schema error. -/
theorem C2_supply_invariant_witness :
    Coins.transmutate ⟨5, []⟩ 0 < issuedSupplyOf [⟨⟨10, []⟩, 0, none⟩] 0 ∧
    Processor.issue (fun _ => 0) 0 0 "TCKR" "Test" none
        (IssueStructure.MultipleIssues ⟨5, []⟩ ⟨0, none⟩) [⟨⟨10, []⟩, 0, none⟩] 0 [] none =
      Except.error (ServiceErrorDomain.Schema
        (supplyErrMsg (Coins.transmutate ⟨5, []⟩ 0) (issuedSupplyOf [⟨⟨10, []⟩, 0, none⟩] 0))) :=
  ⟨by decide,
    (C2_supply_invariant (fun _ => 0) 0 0 "TCKR" "Test" none ⟨5, []⟩ ⟨0, none⟩
      [⟨⟨10, []⟩, 0, none⟩] 0 [] none).1 (by decide)⟩

/-- C9: `OutpointCoins` ordering and hashing depend only on the outpoint:
two values with equal outpoints compare `Equal` and feed identical data to
the hasher, whatever their amounts. -/
theorem C9_outpoint_identity (a b : OutpointCoins) (h : a.outpoint = b.outpoint) :
    OutpointCoins.cmp a b = Ordering.eq ∧ a.hashFeed = b.hashFeed := by
  constructor
  · simp [OutpointCoins.cmp, OutPoint.cmp, h, Nat.compare_eq_eq.mpr rfl]
  · simp [OutpointCoins.hashFeed, h]

/-- Witness for C9: same outpoint, different amounts. -/
theorem C9_outpoint_identity_witness :
    OutpointCoins.cmp ⟨⟨1, []⟩, ⟨5, 6⟩⟩ ⟨⟨2, []⟩, ⟨5, 6⟩⟩ = Ordering.eq ∧
    OutpointCoins.hashFeed ⟨⟨1, []⟩, ⟨5, 6⟩⟩ = OutpointCoins.hashFeed ⟨⟨2, []⟩, ⟨5, 6⟩⟩ :=
  C9_outpoint_identity ⟨⟨1, []⟩, ⟨5, 6⟩⟩ ⟨⟨2, []⟩, ⟨5, 6⟩⟩ rfl

/-- C10: a transfer with no inputs, no outputs and no change outpoint
succeeds for every asset, producing the transition with an empty ancestor
map and a zero-balanced Assets assignment over empty lists. -/
theorem C10_empty_transfer (entropy : Nat → Nat) (asset : Asset) :
    Processor.transfer entropy asset [] [] [] none =
      Except.ok
        { transition_type := TransitionType.Transfer
          metadata := []
          ancestors := []
          assignments := [(AssignmentsType.Assets, AssignmentsVariant.zeroBalanced [] [] [])] } :=
  rfl

/-- C5: when the stash replies `Failure` to a Validate request, the client
does not receive that `Failure` as the reply: `stash_req_rep` converts it
into a `Stash` domain error first (the `Failure` passthrough arm of
`Runtime::validate` is unreachable); a `Success` stash reply does reach the
client as `Success`. -/
theorem C5_validate_failure_intercepted :
    (Runtime.rpcValidate oracleFailure consignmentEx).2 =
        Except.error ServiceErrorDomain.Stash ∧
    (Runtime.rpcValidate oracleSuccess consignmentEx).2 = Except.ok Reply.Success :=
  ⟨rfl, rfl⟩

/-- C3: replaying an accepted consignment duplicates the allocation.  After
one accept of `acceptApiEx` on an empty cache the asset holds one allocation
at the revealed outpoint; running the identical accept again appends the
same allocation a second time, so the handler is not idempotent per
(output, confidential-seal) pair. -/
theorem C3_accept_not_idempotent :
    ((Runtime.accept oracleSuccess [] acceptApiEx).2.1.assetById 5).map
        (fun a => a.allocations ⟨2, 3⟩) = some (some [⟨9, 0, ⟨7, 0⟩⟩]) ∧
    ((Runtime.accept oracleSuccess
          (Runtime.accept oracleSuccess [] acceptApiEx).2.1 acceptApiEx).2.1.assetById 5).map
        (fun a => a.allocations ⟨2, 3⟩) = some (some [⟨9, 0, ⟨7, 0⟩⟩, ⟨9, 0, ⟨7, 0⟩⟩]) :=
  ⟨rfl, rfl⟩

/-- C6 (amended part): the Issue/ImportAsset path (`import_asset`) and the
Accept handler never mutate the cache before a stash request is sent: their
event traces contain no cache mutation preceding a stash round trip. -/
theorem C6_stash_before_cache (oracle : StashRequest → Reply) (cache : Cache)
    (asset : Asset) (genesis : Genesis) (a : AcceptApi) :
    cacheMutBeforeStash (Runtime.importAsset oracle cache asset genesis).1 = false ∧
    cacheMutBeforeStash (Runtime.accept oracle cache a).1 = false := by
  constructor
  · unfold Runtime.importAsset Runtime.stashReqRep
    rcases h : oracle (StashRequest.AddGenesis genesis) with _ | m | _ | g | p <;>
      simp [h, cacheMutBeforeStash, List.any]
  · unfold Runtime.accept Runtime.stashReqRep
    rcases h : oracle (StashRequest.Merge
        { consignment := a.consignment, reveal_outpoints := a.reveal_outpoints }) with
      _ | m | _ | g | p <;>
      simp only [h] <;>
      first
      | rfl
      | (rcases h2 : acceptAsset0 cache a.consignment.genesis with e | a0 <;>
          simp only [h2] <;>
          first
          | rfl
          | (rcases h3 : acceptApplyTransitions a.reveal_outpoints a0
                a.consignment.state_transitions with e2 | a1 <;>
              simp [h3, cacheMutBeforeStash]))

/-- C6 (counterexample): the Forget handler violates the ordering invariant —
on a cache holding one asset with an allocation at the requested outpoint,
its trace performs a cache mutation strictly before the stash Forget request. -/
theorem C6_forget_mutates_cache_first :
    cacheMutBeforeStash (Runtime.forget oracleSuccess [assetForgetEx] ⟨1, 2⟩).1 = true :=
  rfl

/-! ## Helper lemmas for the textual codec round trips -/

theorem digitsFuel_eq (b : Nat) (hb : 2 ≤ b) :
    ∀ fuel n, n ≤ fuel → digitsFuel b fuel n = Nat.digits b n := by
  intro fuel
  induction fuel with
  | zero =>
      intro n hn
      have h0 : n = 0 := by omega
      subst h0
      simp [digitsFuel]
  | succ f ih =>
      intro n hn
      match n with
      | 0 => simp [digitsFuel]
      | m + 1 =>
          have hdiv : (m + 1) / b ≤ f := by
            have := Nat.div_lt_self (Nat.succ_pos m) (show 1 < b by omega)
            simp only [Nat.succ_eq_add_one] at this
            omega
          rw [show digitsFuel b (f + 1) (m + 1) =
              ((m + 1) % b) :: digitsFuel b f ((m + 1) / b) from rfl,
            ih ((m + 1) / b) hdiv, Nat.digits_def' (show 1 < b by omega) (Nat.succ_pos m)]

theorem natDigits_eq (b : Nat) (hb : 2 ≤ b) (n : Nat) : natDigits b n = Nat.digits b n :=
  digitsFuel_eq b hb n n le_rfl

theorem foldl_rev_map_ofDigits (b : Nat) (f : Nat → Char) (g : Char → Nat) :
    ∀ (L : List Nat) (a : Nat), (∀ d ∈ L, g (f d) = d) →
      (L.reverse.map f).foldl (fun acc c => b * acc + g c) a =
        a * b ^ L.length + Nat.ofDigits b L := by
  intro L
  induction L with
  | nil => intro a _; simp [Nat.ofDigits]
  | cons d L2 ih =>
      intro a h
      have hd : g (f d) = d := h d (by simp)
      have hL2 : ∀ e ∈ L2, g (f e) = e := fun e he => h e (by simp [he])
      simp only [List.reverse_cons, List.map_append, List.foldl_append, List.map_cons,
        List.foldl_cons, List.foldl_nil, List.map_nil]
      rw [ih a hL2, hd, Nat.ofDigits_cons, List.length_cons]
      ring

theorem charDigitVal_digitChar : ∀ d < 10, charDigitVal (digitChar d) = d := by decide

theorem digitChar_facts :
    ∀ d < 10, (digitChar d).isDigit = true ∧ isCoinClassChar (digitChar d) = true ∧
      (digitChar d).toLower = digitChar d ∧ digitChar d ≠ '@' ∧ digitChar d ≠ '.' ∧
      digitChar d ≠ ':' := by decide

theorem charHexVal_hexChar : ∀ d < 16, charHexVal (hexChar d) = d := by decide

theorem hexChar_facts :
    ∀ d < 16, isHexClassChar (hexChar d) = true ∧ (hexChar d).toLower = hexChar d ∧
      hexChar d ≠ '@' ∧ hexChar d ≠ ':' := by decide

theorem charDigitFin_digitChar : ∀ d : Fin 10, charDigitFin (digitChar d.val) = d := by decide

theorem mem_natChars (n : Nat) : ∀ c ∈ natChars n, ∃ d, d < 10 ∧ c = digitChar d := by
  intro c hc
  unfold natChars at hc
  by_cases h : n = 0
  · simp [h] at hc
    exact ⟨0, by norm_num, hc⟩
  · simp only [h, if_false] at hc
    rcases List.mem_map.mp hc with ⟨d, hd, rfl⟩
    refine ⟨d, ?_, rfl⟩
    rw [natDigits_eq 10 (by norm_num)] at hd
    exact Nat.digits_lt_base (by norm_num) (List.mem_reverse.mp hd)

theorem natChars_ne_nil (n : Nat) : natChars n ≠ [] := by
  unfold natChars
  by_cases h : n = 0
  · simp [h]
  · simp only [h, if_false]
    rw [natDigits_eq 10 (by norm_num)]
    have hne : Nat.digits 10 n ≠ [] := Nat.digits_ne_nil_iff_ne_zero.mpr h
    intro hcontra
    apply hne
    simpa using hcontra

theorem charsVal_natChars (n : Nat) : charsVal 10 charDigitVal (natChars n) = n := by
  unfold natChars charsVal
  by_cases h : n = 0
  · subst h; decide
  · simp only [h, if_false]
    rw [natDigits_eq 10 (by norm_num)]
    have := foldl_rev_map_ofDigits 10 digitChar charDigitVal (Nat.digits 10 n) 0
      (fun d hd => charDigitVal_digitChar d (Nat.digits_lt_base (by norm_num) hd))
    simpa [Nat.ofDigits_digits] using this

theorem hexChars64_length (t : Nat) (ht : t < 16 ^ 64) : (hexChars64 t).length = 64 := by
  unfold hexChars64
  rw [natDigits_eq 16 (by norm_num)]
  have hlen : (Nat.digits 16 t).length ≤ 64 := by
    by_cases h : t = 0
    · simp [h]
    · rw [Nat.digits_len 16 t (by norm_num) h]
      have := Nat.log_lt_of_lt_pow h ht
      omega
  simp only [List.length_append, List.length_replicate, List.length_map, List.length_reverse]
  omega

theorem mem_hexChars64 (t : Nat) : ∀ c ∈ hexChars64 t, ∃ d, d < 16 ∧ c = hexChar d := by
  intro c hc
  unfold hexChars64 at hc
  rw [natDigits_eq 16 (by norm_num)] at hc
  rcases List.mem_append.mp hc with h | h
  · have := List.eq_of_mem_replicate h
    exact ⟨0, by norm_num, by rw [this]; rfl⟩
  · rcases List.mem_map.mp h with ⟨d, hd, rfl⟩
    exact ⟨d, Nat.digits_lt_base (by norm_num) (List.mem_reverse.mp hd), rfl⟩

theorem charsVal_hexChars64 (t : Nat) : charsVal 16 charHexVal (hexChars64 t) = t := by
  unfold hexChars64 charsVal
  rw [natDigits_eq 16 (by norm_num), List.foldl_append]
  have hzeros : ∀ k, (List.replicate k '0').foldl (fun acc c => 16 * acc + charHexVal c) 0 = 0 := by
    intro k
    induction k with
    | zero => rfl
    | succ k2 ih => simpa [List.replicate_succ, charHexVal] using ih
  rw [hzeros]
  have := foldl_rev_map_ofDigits 16 hexChar charHexVal (Nat.digits 16 t) 0
    (fun d hd => charHexVal_hexChar d (Nat.digits_lt_base (by norm_num) hd))
  simpa [Nat.ofDigits_digits] using this

theorem mem_accountingValue_chars (a : AccountingValue) :
    ∀ c ∈ a.chars, (∃ d, d < 10 ∧ c = digitChar d) ∨ c = '.' := by
  intro c hc
  rcases a with ⟨n, ds⟩
  unfold AccountingValue.chars at hc
  rcases ds with _ | ⟨d, ds2⟩
  · simp only [List.append_nil] at hc
    exact Or.inl (mem_natChars n c hc)
  · rcases List.mem_append.mp hc with h | h
    · exact Or.inl (mem_natChars n c h)
    · rcases List.mem_cons.mp h with h2 | h2
      · exact Or.inr h2
      · rcases List.mem_map.mp h2 with ⟨e, _, rfl⟩
        exact Or.inl ⟨e.val, e.isLt, rfl⟩

theorem accountingValue_chars_class (a : AccountingValue) :
    ∀ c ∈ a.chars, isCoinClassChar c = true := by
  intro c hc
  rcases mem_accountingValue_chars a c hc with ⟨d, hd, rfl⟩ | rfl
  · exact (digitChar_facts d hd).2.1
  · decide

theorem accountingValue_chars_ne_nil (a : AccountingValue) : a.chars ≠ [] := by
  unfold AccountingValue.chars
  intro h
  rcases List.append_eq_nil.mp h with ⟨h1, _⟩
  exact natChars_ne_nil a.int h1

theorem splitFirst_of_not_mem (sep : Char) :
    ∀ cs : List Char, sep ∉ cs → splitFirst sep cs = (cs, none) := by
  intro cs
  induction cs with
  | nil => intro _; rfl
  | cons c rest ih =>
      intro h
      have h1 : ¬ c = sep := fun h2 => h (by simp [h2])
      have h2 : sep ∉ rest := fun h3 => h (by simp [h3])
      simp [splitFirst, h1, ih h2]

theorem splitFirst_append (sep : Char) :
    ∀ xs : List Char, sep ∉ xs → ∀ ys : List Char,
      splitFirst sep (xs ++ sep :: ys) = (xs, some ys) := by
  intro xs
  induction xs with
  | nil => intro _ ys; simp [splitFirst]
  | cons c rest ih =>
      intro h ys
      have h1 : ¬ c = sep := fun h2 => h (by simp [h2])
      have h2 : sep ∉ rest := fun h3 => h (by simp [h3])
      simp [splitFirst, h1, ih h2 ys]

theorem takeWhile_dropWhile_append (p : Char → Bool) :
    ∀ (xs : List Char) (y : Char) (ys : List Char), (∀ c ∈ xs, p c = true) → p y = false →
      (xs ++ y :: ys).takeWhile p = xs ∧ (xs ++ y :: ys).dropWhile p = y :: ys := by
  intro xs
  induction xs with
  | nil =>
      intro y ys _ hy
      simp [List.takeWhile_cons, List.dropWhile_cons, hy]
  | cons c rest ih =>
      intro y ys hx hy
      have hc : p c = true := hx c (by simp)
      have hrec := ih y ys (fun e he => hx e (by simp [he])) hy
      simp [List.takeWhile_cons, List.dropWhile_cons, hc, hrec.1, hrec.2]

theorem natChars_all_digit (n : Nat) : (natChars n).all Char.isDigit = true := by
  rw [List.all_eq_true]
  intro c hc
  rcases mem_natChars n c hc with ⟨d, hd, rfl⟩
  exact (digitChar_facts d hd).1

theorem accountingValue_fromChars_chars (a : AccountingValue) :
    AccountingValue.fromChars a.chars = some a := by
  rcases a with ⟨n, ds⟩
  have hdot : '.' ∉ natChars n := by
    intro h
    rcases mem_natChars n _ h with ⟨d, hd, he⟩
    exact (digitChar_facts d hd).2.2.2.2.1 he.symm
  have hall : ∀ x ∈ natChars n, x.isDigit = true := List.all_eq_true.mp (natChars_all_digit n)
  have hds : ∀ e : Fin 10, (digitChar e.val).isDigit = true :=
    fun e => (digitChar_facts e.val e.isLt).1
  have hds2 : ∀ e : Fin 10, ¬ digitChar e.val = '.' :=
    fun e => (digitChar_facts e.val e.isLt).2.2.2.2.1
  have hfin : ∀ e : Fin 10, charDigitFin (digitChar e.val) = e := charDigitFin_digitChar
  rcases ds with _ | ⟨d, ds2⟩
  · show AccountingValue.fromChars (natChars n ++ []) = _
    rw [List.append_nil]
    unfold AccountingValue.fromChars
    rw [splitFirst_of_not_mem '.' (natChars n) hdot]
    simp [natChars_ne_nil n, charsVal_natChars]
    exact hall
  · show AccountingValue.fromChars
      (natChars n ++ '.' :: (d :: ds2).map (fun e => digitChar e.val)) = _
    unfold AccountingValue.fromChars
    rw [splitFirst_append '.' (natChars n) hdot]
    have hmap2 : List.map (charDigitFin ∘ fun e => digitChar e.val) ds2 = ds2 := by
      conv_rhs => rw [← List.map_id ds2]
      exact List.map_congr_left fun e _ => hfin e
    simp [hds, hds2, hfin, charsVal_natChars, hmap2]
    exact hall

theorem hexChars64_all_hex (t : Nat) : (hexChars64 t).all isHexClassChar = true := by
  rw [List.all_eq_true]
  intro c hc
  rcases mem_hexChars64 t c hc with ⟨d, hd, rfl⟩
  exact (hexChar_facts d hd).1

theorem hexChars64_not_colon (t : Nat) : ':' ∉ hexChars64 t := by
  intro h
  rcases mem_hexChars64 t _ h with ⟨d, hd, he⟩
  exact (hexChar_facts d hd).2.2.2 he.symm

theorem hexChars64_not_at (t : Nat) : '@' ∉ hexChars64 t := by
  intro h
  rcases mem_hexChars64 t _ h with ⟨d, hd, he⟩
  exact (hexChar_facts d hd).2.2.1 he.symm

theorem natChars_not_at (n : Nat) : '@' ∉ natChars n := by
  intro h
  rcases mem_natChars n _ h with ⟨d, hd, he⟩
  exact (digitChar_facts d hd).2.2.2.1 he.symm

theorem accountingValue_chars_not_at (a : AccountingValue) : '@' ∉ a.chars := by
  intro h
  rcases mem_accountingValue_chars a _ h with ⟨d, hd, he⟩ | he
  · exact (digitChar_facts d hd).2.2.2.1 he.symm
  · cases he

theorem sealCoins_fromChars_display (coins : AccountingValue) (vout t : Nat)
    (ht : t < 16 ^ 64) (hv : vout < 2 ^ 32) :
    SealCoins.fromChars (SealCoins.displayChars ⟨coins, vout, some t⟩) =
      Except.ok ⟨coins, vout, some t⟩ := by
  have hrest : SealCoins.displayChars ⟨coins, vout, some t⟩ =
      coins.chars ++ '@' :: (hexChars64 t ++ ':' :: natChars vout) := by
    show coins.chars ++ '@' :: ((hexChars64 t ++ [':']) ++ natChars vout) = _
    simp
  rw [hrest]
  unfold SealCoins.fromChars
  have htd := takeWhile_dropWhile_append isCoinClassChar coins.chars '@'
    (hexChars64 t ++ ':' :: natChars vout) (accountingValue_chars_class coins) (by decide)
  have hlen := hexChars64_length t ht
  have htake : (hexChars64 t ++ ':' :: natChars vout).take 64 = hexChars64 t := by
    rw [← hlen]; exact List.take_left _ _
  have hdrop : (hexChars64 t ++ ':' :: natChars vout).drop 64 = ':' :: natChars vout := by
    rw [← hlen]; exact List.drop_left _ _
  have hall : ∀ x ∈ natChars vout, x.isDigit = true :=
    List.all_eq_true.mp (natChars_all_digit vout)
  have hallhex : ∀ x ∈ hexChars64 t, isHexClassChar x = true :=
    List.all_eq_true.mp (hexChars64_all_hex t)
  have hv2 : vout < 4294967296 := by simpa using hv
  simp only [htd.1, htd.2, htake, hdrop]
  simp [accountingValue_chars_ne_nil coins, hlen, natChars_ne_nil vout,
    accountingValue_fromChars_chars coins, charsVal_natChars, charsVal_hexChars64, hv2]
  have hcond : (∀ x ∈ hexChars64 t, isHexClassChar x = true) ∧
      ∀ x ∈ natChars vout, x.isDigit = true := ⟨hallhex, hall⟩
  exact hcond

theorem consealCoins_fromChars_display (coins : AccountingValue) (h : Nat)
    (hh : h < 16 ^ 64) :
    ConsealCoins.fromChars (ConsealCoins.displayChars ⟨coins, h⟩) =
      Except.ok ⟨coins, h⟩ := by
  show ConsealCoins.fromChars (coins.chars ++ '@' :: hexChars64 h) = _
  unfold ConsealCoins.fromChars
  have htd := takeWhile_dropWhile_append isCoinClassChar coins.chars '@'
    (hexChars64 h) (accountingValue_chars_class coins) (by decide)
  have hallhex : ∀ x ∈ hexChars64 h, isHexClassChar x = true :=
    List.all_eq_true.mp (hexChars64_all_hex h)
  simp only [htd.1, htd.2]
  simp [accountingValue_chars_ne_nil coins, hexChars64_length h hh,
    accountingValue_fromChars_chars coins, charsVal_hexChars64]
  exact hallhex

theorem outPoint_fromChars_display (o : OutPoint) (ht : o.txid < 16 ^ 64)
    (hv : o.vout < 2 ^ 32) : OutPoint.fromChars o.displayChars = some o := by
  show OutPoint.fromChars (hexChars64 o.txid ++ ':' :: natChars o.vout) = _
  unfold OutPoint.fromChars
  rw [splitFirst_append ':' (hexChars64 o.txid) (hexChars64_not_colon o.txid)]
  have hall : ∀ x ∈ natChars o.vout, x.isDigit = true :=
    List.all_eq_true.mp (natChars_all_digit o.vout)
  have hallhex : ∀ x ∈ hexChars64 o.txid, isHexClassChar x = true :=
    List.all_eq_true.mp (hexChars64_all_hex o.txid)
  simp [hexChars64_length o.txid ht, natChars_ne_nil o.vout, charsVal_natChars,
    charsVal_hexChars64]
  exact ⟨hallhex, hall, by simpa using hv⟩

theorem splitAll_of_not_mem (sep : Char) :
    ∀ cs : List Char, sep ∉ cs → splitAll sep cs = [cs] := by
  intro cs
  induction cs with
  | nil => intro _; rfl
  | cons c rest ih =>
      intro h
      have h1 : ¬ c = sep := fun h2 => h (by simp [h2])
      have h2 : sep ∉ rest := fun h3 => h (by simp [h3])
      simp [splitAll, h1, ih h2]

theorem splitAll_append_sep (sep : Char) :
    ∀ xs : List Char, sep ∉ xs → ∀ ys : List Char, sep ∉ ys →
      splitAll sep (xs ++ sep :: ys) = [xs, ys] := by
  intro xs
  induction xs with
  | nil =>
      intro _ ys hy
      simp [splitAll, splitAll_of_not_mem sep ys hy]
  | cons c rest ih =>
      intro h ys hy
      have h1 : ¬ c = sep := fun h2 => h (by simp [h2])
      have h2 : sep ∉ rest := fun h3 => h (by simp [h3])
      simp [splitAll, h1, ih h2 ys hy]

theorem outPoint_display_not_at (o : OutPoint) : '@' ∉ o.displayChars := by
  intro h
  rcases List.mem_append.mp h with h2 | h2
  · exact hexChars64_not_at o.txid h2
  · rcases List.mem_cons.mp h2 with h3 | h3
    · cases h3
    · exact natChars_not_at o.vout h3

theorem outpointCoins_fromStr_display (y : OutpointCoins) (ht : y.outpoint.txid < 16 ^ 64)
    (hv : y.outpoint.vout < 2 ^ 32) : OutpointCoins.fromStr y.display = Except.ok y := by
  rcases y with ⟨coins, o⟩
  show OutpointCoins.fromStr (String.mk (coins.chars ++ '@' :: o.displayChars)) = _
  unfold OutpointCoins.fromStr
  rw [show (String.mk (coins.chars ++ '@' :: o.displayChars)).toList =
      coins.chars ++ '@' :: o.displayChars from rfl,
    splitAll_append_sep '@' coins.chars (accountingValue_chars_not_at coins)
      o.displayChars (outPoint_display_not_at o)]
  simp [accountingValue_fromChars_chars coins, outPoint_fromChars_display o ht hv]

theorem sealCoins_display_toLower (coins : AccountingValue) (vout t : Nat) :
    (SealCoins.displayChars ⟨coins, vout, some t⟩).map Char.toLower =
      SealCoins.displayChars ⟨coins, vout, some t⟩ := by
  conv_rhs => rw [← List.map_id (SealCoins.displayChars ⟨coins, vout, some t⟩)]
  apply List.map_congr_left
  intro c hc
  show c.toLower = c
  have hc2 : c ∈ coins.chars ++ '@' :: ((hexChars64 t ++ [':']) ++ natChars vout) := hc
  rcases List.mem_append.mp hc2 with h | h
  · rcases mem_accountingValue_chars coins c h with ⟨d, hd, rfl⟩ | rfl
    · exact (digitChar_facts d hd).2.2.1
    · decide
  · rcases List.mem_cons.mp h with rfl | h2
    · decide
    · rcases List.mem_append.mp h2 with h3 | h3
      · rcases List.mem_append.mp h3 with h4 | h4
        · rcases mem_hexChars64 t c h4 with ⟨d, hd, rfl⟩
          exact (hexChar_facts d hd).2.1
        · rcases List.mem_singleton.mp h4 with rfl
          decide
      · rcases mem_natChars vout c h3 with ⟨d, hd, rfl⟩
        exact (digitChar_facts d hd).2.2.1

theorem consealCoins_display_toLower (coins : AccountingValue) (h : Nat) :
    (ConsealCoins.displayChars ⟨coins, h⟩).map Char.toLower =
      ConsealCoins.displayChars ⟨coins, h⟩ := by
  conv_rhs => rw [← List.map_id (ConsealCoins.displayChars ⟨coins, h⟩)]
  apply List.map_congr_left
  intro c hc
  show c.toLower = c
  have hc2 : c ∈ coins.chars ++ '@' :: hexChars64 h := hc
  rcases List.mem_append.mp hc2 with h2 | h2
  · rcases mem_accountingValue_chars coins c h2 with ⟨d, hd, rfl⟩ | rfl
    · exact (digitChar_facts d hd).2.2.1
    · decide
  · rcases List.mem_cons.mp h2 with rfl | h3
    · decide
    · rcases mem_hexChars64 h c h3 with ⟨d, hd, rfl⟩
      exact (hexChar_facts d hd).2.1

/-- C4 (counterexample): the round trip fails for SealCoins values with no
txid — `Display` prints `"10@0"`, which the parser rejects because its regex
requires the txid group. -/
theorem C4_roundtrip_counterexample :
    SealCoins.fromStr (SealCoins.display ⟨⟨10, []⟩, 0, none⟩) ≠
      Except.ok ⟨⟨10, []⟩, 0, none⟩ := by decide

/-- C4 (amended): parse is the exact inverse of format for OutpointCoins,
ConsealCoins, and SealCoins whose txid is present, over every representable
value in range (txids and seal hashes below `16^64`, vouts below `2^32`);
for SealCoins with `txid = None` the round trip fails. -/
theorem C4_roundtrip_amended :
    (∀ (coins : AccountingValue) (vout t : Nat), t < 16 ^ 64 → vout < 2 ^ 32 →
      SealCoins.fromStr (SealCoins.display ⟨coins, vout, some t⟩) =
        Except.ok ⟨coins, vout, some t⟩) ∧
    (∀ y : OutpointCoins, y.outpoint.txid < 16 ^ 64 → y.outpoint.vout < 2 ^ 32 →
      OutpointCoins.fromStr y.display = Except.ok y) ∧
    (∀ (coins : AccountingValue) (h : Nat), h < 16 ^ 64 →
      ConsealCoins.fromStr (ConsealCoins.display ⟨coins, h⟩) = Except.ok ⟨coins, h⟩) := by
  refine ⟨?_, ?_, ?_⟩
  · intro coins vout t ht hv
    show SealCoins.fromChars
      ((String.mk (SealCoins.displayChars ⟨coins, vout, some t⟩)).toList.map Char.toLower) = _
    rw [show (String.mk (SealCoins.displayChars ⟨coins, vout, some t⟩)).toList =
        SealCoins.displayChars ⟨coins, vout, some t⟩ from rfl,
      sealCoins_display_toLower, sealCoins_fromChars_display coins vout t ht hv]
  · intro y ht hv
    exact outpointCoins_fromStr_display y ht hv
  · intro coins h hh
    show ConsealCoins.fromChars
      ((String.mk (ConsealCoins.displayChars ⟨coins, h⟩)).toList.map Char.toLower) = _
    rw [show (String.mk (ConsealCoins.displayChars ⟨coins, h⟩)).toList =
        ConsealCoins.displayChars ⟨coins, h⟩ from rfl,
      consealCoins_display_toLower, consealCoins_fromChars_display coins h hh]

/-- Witness for the amended C4 at concrete values of each of the three
types. -/
theorem C4_roundtrip_witness :
    SealCoins.fromStr (SealCoins.display ⟨⟨10, []⟩, 2, some 0⟩) =
        Except.ok ⟨⟨10, []⟩, 2, some 0⟩ ∧
    OutpointCoins.fromStr (OutpointCoins.display ⟨⟨3, []⟩, ⟨255, 7⟩⟩) =
        Except.ok ⟨⟨3, []⟩, ⟨255, 7⟩⟩ ∧
    ConsealCoins.fromStr (ConsealCoins.display ⟨⟨3, []⟩, 99⟩) = Except.ok ⟨⟨3, []⟩, 99⟩ :=
  ⟨C4_roundtrip_amended.1 ⟨10, []⟩ 2 0 (by norm_num) (by norm_num),
    C4_roundtrip_amended.2.1 ⟨⟨3, []⟩, ⟨255, 7⟩⟩ (by norm_num) (by norm_num),
    C4_roundtrip_amended.2.2 ⟨3, []⟩ 99 (by norm_num)⟩

/-! ## Helper lemmas for the ancestor-map completeness claim -/

theorem append_singleton_shuffle {α : Type} (A B : List α) (x : α) :
    List.Perm ((A ++ [x]) ++ B) ((A ++ B) ++ [x]) := by
  rw [List.append_assoc, List.append_assoc]
  exact List.Perm.append_left A List.perm_append_comm

theorem tyPush_flatten (n : Nat) :
    ∀ (tymap : List (AssignmentsType × List Nat)) (ty : AssignmentsType) (i : Nat),
      List.Perm ((tyPush tymap ty i).flatMap fun q => q.2.map fun j => (n, q.1, j))
        ((tymap.flatMap fun q => q.2.map fun j => (n, q.1, j)) ++ [(n, ty, i)]) := by
  intro tymap
  induction tymap with
  | nil => intro ty i; simp [tyPush]
  | cons q rest ih =>
      intro ty i
      rcases q with ⟨ty2, idxs⟩
      by_cases h : ty2 = ty
      · subst h
        simp only [tyPush, eq_self_iff_true, ite_true, List.flatMap_cons, List.map_append]
        exact append_singleton_shuffle _ _ _
      · simp only [tyPush, if_neg h, List.flatMap_cons]
        simpa [List.append_assoc] using
          List.Perm.append_left (idxs.map fun j => (n, ty2, j)) (ih ty i)

theorem ancestorsPush_flatten :
    ∀ (anc : Ancestors) (n : Nat) (ty : AssignmentsType) (i : Nat),
      List.Perm (ancestorsFlatten (ancestorsPush anc n ty i))
        (ancestorsFlatten anc ++ [(n, ty, i)]) := by
  intro anc
  induction anc with
  | nil => intro n ty i; simp [ancestorsPush, ancestorsFlatten, tyPush]
  | cons p rest ih =>
      intro n ty i
      rcases p with ⟨m, tymap⟩
      by_cases h : m = n
      · subst h
        simp only [ancestorsPush, eq_self_iff_true, ite_true, ancestorsFlatten,
          List.flatMap_cons]
        exact (List.Perm.append_right _ (tyPush_flatten m tymap ty i)).trans
          (append_singleton_shuffle _ _ _)
      · simp only [ancestorsPush, if_neg h, ancestorsFlatten, List.flatMap_cons]
        simpa [List.append_assoc] using
          List.Perm.append_left (tymap.flatMap fun q => q.2.map fun j => (m, q.1, j)) (ih n ty i)

theorem foldl_ancestorsPush_flatten :
    ∀ (allocs : List Allocation) (anc : Ancestors),
      List.Perm
        (ancestorsFlatten (allocs.foldl
          (fun a al => ancestorsPush a al.node_id AssignmentsType.Assets al.index) anc))
        (ancestorsFlatten anc ++
          allocs.map fun al => (al.node_id, AssignmentsType.Assets, al.index)) := by
  intro allocs
  induction allocs with
  | nil => intro anc; simp
  | cons al rest ih =>
      intro anc
      simp only [List.foldl_cons, List.map_cons]
      refine (ih (ancestorsPush anc al.node_id AssignmentsType.Assets al.index)).trans ?_
      refine (List.Perm.append_right _
        (ancestorsPush_flatten anc al.node_id AssignmentsType.Assets al.index)).trans ?_
      rw [List.append_assoc]
      exact List.Perm.refl _

/-- C8 (counterexample): listing the same input outpoint twice resolves the
same allocation twice, the transfer still succeeds when amounts balance, and
the ancestor map then carries a duplicate `(node, type, index)` reference —
the claim's "each consumed allocation appears exactly once, no duplicate
index entries" fails. -/
theorem C8_duplicate_inputs :
    (Processor.transfer (fun _ => 0) assetEx [⟨1, 2⟩, ⟨1, 2⟩] [] [⟨⟨10, []⟩, 99⟩] none).map
        (fun t => ancestorsFlatten t.ancestors) =
      Except.ok [(1, AssignmentsType.Assets, 0), (1, AssignmentsType.Assets, 0)] ∧
    ¬ List.Nodup [((1 : Nat), AssignmentsType.Assets, (0 : Nat)),
        (1, AssignmentsType.Assets, 0)] :=
  ⟨by decide, by decide⟩

/-- C8 (amended): for every successful transfer, the multiset of
`(node_id, assignment-type, index)` references in the Transition's ancestor
map is exactly the multiset of resolved input allocations (a permutation of
their reference triples); in particular, when the resolved allocations'
triples are pairwise distinct each appears exactly once. -/
theorem C8_ancestor_references (entropy : Nat → Nat) (asset : Asset)
    (inputs : List OutPoint) (ours : List OutpointCoins) (theirs : List ConsealCoins)
    (change_outpoint : Option OutpointHash) (allocs : List Allocation) (t : Transition)
    (hres : collectInputAllocations asset inputs = Except.ok allocs)
    (hok : Processor.transfer entropy asset inputs ours theirs change_outpoint = Except.ok t) :
    List.Perm (ancestorsFlatten t.ancestors)
      (allocs.map fun al => (al.node_id, AssignmentsType.Assets, al.index)) := by
  have hanc : t.ancestors = allocs.foldl
      (fun a al => ancestorsPush a al.node_id AssignmentsType.Assets al.index) [] := by
    unfold Processor.transfer at hok
    rw [hres] at hok
    by_cases h1 : totalInputAmount allocs < totalOutputAmount asset ours theirs
    · simp [h1] at hok
    · by_cases h2 : totalOutputAmount asset ours theirs < totalInputAmount allocs
      · rcases change_outpoint with _ | chg
        · simp [h1, h2] at hok
        · simp only [h1, h2, if_false, if_true] at hok
          cases hok
          rfl
      · simp only [h1, h2, if_false] at hok
        cases hok
        rfl
  rw [hanc]
  simpa using foldl_ancestorsPush_flatten allocs []

/-- Witness for the amended C8 at the concrete single-allocation transfer. -/
theorem C8_ancestor_references_witness :
    List.Perm (ancestorsFlatten transitionEx.ancestors)
      ([(⟨1, 0, ⟨5, 0⟩⟩ : Allocation)].map
        fun al => (al.node_id, AssignmentsType.Assets, al.index)) :=
  C8_ancestor_references (fun _ => 0) assetEx [⟨1, 2⟩] [] [⟨⟨5, []⟩, 99⟩] none
    [⟨1, 0, ⟨5, 0⟩⟩] transitionEx (by decide) (by decide)

/-- C7: the SealCoins regex makes the txid group mandatory, so the no-txid
form `"10@0"` is rejected with a parse error instead of succeeding with
`txid = None` (the source's `(coins, None, vout)` match arm is dead code);
the txid-bearing form produced by `Display` for `txid = Some 0` parses back
as claimed. -/
theorem C7_txid_mandatory :
    SealCoins.fromStr "10@0" = Except.error ParseError.parseError ∧
    SealCoins.fromStr (SealCoins.display ⟨⟨10, []⟩, 0, some 0⟩) =
      Except.ok ⟨⟨10, []⟩, 0, some 0⟩ :=
  ⟨rfl, by decide⟩

end RgbNode
